import Mathlib

set_option maxHeartbeats 1000000

/-!
Shallow embedding of the merge/reconciliation engine of `merge_data.py`
(with the usage-observation record type from `parse_raw_results.py`).

Python integers are modelled as `Int` (arbitrary precision, signed, exactly
as JSON-decoded Python ints), Python float division as exact `Rat` division,
Python dicts (insertion ordered, unique keys) as association lists with
update-in-place insertion, and the file system as a partial map from file
names to file contents.  Fallible Python code (`raise`, `KeyError`,
`ValueError`) is modelled in the `Except String` monad.
-/

/-- Modelled from the spec: a catalog entry produced by the external
`parse_mantid_source` module (not part of this repository's sources): one
declared algorithm with name (versioned identity), file path, language
(`type`, compared against the strings `C++` / `Python`), whether the
declaring file is a test file, and its module. Field use is exactly as read
by `AlgRecord.__init__` in `merge_data.py`. -/
structure AlgFileRecord where
  name : String
  path : String
  type : String
  is_test : Bool
  module : String
deriving DecidableEq

/-- One usage observation, from `parse_raw_results.py` (`AlgResultRecord`):
a 4-tuple `[name, count, is_child, version]` decoded from JSON. -/
structure AlgResultRecord where
  name : String
  count : Int
  is_child : Bool
  version : String
deriving DecidableEq

/-- The unified record built by `merge_data.py` (`class AlgRecord`).  The
attributes `superseded`, `line_count` and `is_deprecated` are assigned only
inside `merge`; they carry neutral defaults here since Python creates them
on first assignment. -/
structure AlgRecord where
  ours : Bool
  has_test : Bool
  test_fraction : Rat
  test_count : Nat
  name : String
  path : String
  type : String
  is_test : Bool
  module : String
  count_direct : List Int
  count_internal : List Int
  superseded : String := ""
  line_count : String := ""
  is_deprecated : Bool := false
deriving DecidableEq

/-- `AlgRecord.__init__` on an `AlgFileRecord` (the `isinstance(data,
parse_mantid_source.AlgFileRecord)` branch). -/
def AlgRecord.ofAlg (data : AlgFileRecord) : AlgRecord :=
  { ours := true
    has_test := false
    test_fraction := 0
    test_count := 0
    name := data.name
    path := data.path
    type := data.type
    is_test := data.is_test
    module := data.module
    count_direct := [0, 0, 0, 0, 0, 0, 0, 0]
    count_internal := [0, 0, 0, 0, 0, 0, 0, 0] }

/-- `AlgRecord.__init__` on a plain string (the `isinstance(data, str)`
branch, used for usage-only records). -/
def AlgRecord.ofName (data : String) : AlgRecord :=
  { ours := false
    has_test := false
    test_fraction := 0
    test_count := 0
    name := data
    path := "-"
    type := "-"
    is_test := false
    module := "-"
    count_direct := [0, 0, 0, 0, 0, 0, 0, 0]
    count_internal := [0, 0, 0, 0, 0, 0, 0, 0] }

/-- The eight version strings accepted by `AlgRecord.index_for_version`,
in slot order. -/
def supported_versions : List String :=
  ["3.5", "3.6", "3.7", "3.8", "3.9", "3.10", "3.11", "3.12"]

/-- `AlgRecord.index_for_version`: fixed lookup table; any other string
raises `RuntimeError('Unknown version ...')`. -/
def index_for_version (version : String) : Except String Nat :=
  if version = "3.5" then .ok 0
  else if version = "3.6" then .ok 1
  else if version = "3.7" then .ok 2
  else if version = "3.8" then .ok 3
  else if version = "3.9" then .ok 4
  else if version = "3.10" then .ok 5
  else if version = "3.11" then .ok 6
  else if version = "3.12" then .ok 7
  else .error ("Unknown version " ++ version)

/-- In-place `l[index] += c` on a Python list (index is always in range
here, guaranteed by `index_for_version`). -/
def addAt : List Int → Nat → Int → List Int
  | [], _, _ => []
  | x :: xs, 0, c => (x + c) :: xs
  | x :: xs, n + 1, c => x :: addAt xs n c

/-- `AlgRecord.add_result_data`: add the observation's count into the
direct or internal slot of its version. -/
def AlgRecord.add_result_data (self : AlgRecord) (result : AlgResultRecord) :
    Except String AlgRecord := do
  let index ← index_for_version result.version
  let count := result.count
  if result.is_child then
    pure { self with count_internal := addAt self.count_internal index count }
  else
    pure { self with count_direct := addAt self.count_direct index count }

/-- `AlgRecord.get_count`: total of both count arrays. -/
def AlgRecord.get_count (self : AlgRecord) : Int :=
  self.count_direct.sum + self.count_internal.sum

/-- `AlgRecord.get_internal_fraction`: `1.0 if count < 1 else
float(sum(count_internal))/count`, with exact rational division standing
for Python float division. -/
def AlgRecord.get_internal_fraction (self : AlgRecord) : Rat :=
  if self.get_count < 1 then 1
  else (self.count_internal.sum : Rat) / (self.get_count : Rat)

/-- Python's `s[:-2:-1]`: the last character of `s` as a string (empty when
`s` is empty). -/
def py_last (s : String) : String :=
  match s.data.getLast? with
  | none => ""
  | some c => String.mk [c]

/-- Python's `s[:-1]`: `s` without its last character. -/
def py_dropLast (s : String) : String :=
  String.mk s.data.dropLast

/-- The merged mapping: a Python dict keyed by identity, modelled as an
insertion-ordered association list with unique keys. -/
abbrev Dict := List (String × AlgRecord)

/-- Python `d[k]` as an option. -/
def dget? (m : Dict) (k : String) : Option AlgRecord :=
  (List.find? (fun p => p.1 == k) m).map Prod.snd

/-- Python `k in d`. -/
def dmem (m : Dict) (k : String) : Bool :=
  List.any m (fun p => p.1 == k)

/-- Python `d[k] = v`: update in place when the key exists (keeping its
position), append otherwise. -/
def dinsert : Dict → String → AlgRecord → Dict
  | [], k, v => [(k, v)]
  | p :: rest, k, v => if p.1 = k then (k, v) :: rest else p :: dinsert rest k v

/-- Python `del d[k]` (on a dict, whose keys are unique, this removes the
entry for `k`; callers check membership first to model `KeyError`). -/
def ddelete (m : Dict) (k : String) : Dict :=
  List.filter (fun p => !(p.1 == k)) m

/-- Python whitespace test for `str.strip()`. -/
def py_isspace (c : Char) : Bool :=
  c = ' ' || c = '\t' || c = '\n' || c = '\r' || c = Char.ofNat 11 || c = Char.ofNat 12

/-- Python `s.strip()`: remove leading and trailing whitespace. -/
def py_strip (s : String) : String :=
  String.mk (((s.data.dropWhile py_isspace).reverse.dropWhile py_isspace).reverse)

/-- Python `s.split(sep)` for a one-character separator (every `split` in
the source uses a single-character separator: `'\n'`, `'/'` or `'.'`);
always returns at least one (possibly empty) group. -/
def py_split_go (sep : Char) : List Char → List (List Char)
  | [] => [[]]
  | c :: rest =>
    match py_split_go sep rest with
    | [] => [[]]
    | g :: gs => if c = sep then [] :: g :: gs else (c :: g) :: gs

/-- Python `s.split(sep)` on strings, one-character separator. -/
def py_split (s : String) (sep : Char) : List String :=
  (py_split_go sep s.data).map String.mk

/-- Python `int(s)` restricted to the strings it is applied to in the
source (the at-most-one-character output of `s[:-2:-1]`): succeeds exactly
on non-empty all-digit strings. -/
def py_int? (s : String) : Option Nat :=
  match s.data with
  | [] => none
  | l =>
    if l.all Char.isDigit then
      some (l.foldl (fun n c => 10 * n + (c.toNat - 48)) 0)
    else none

/-- Python's non-overlapping `text.count(pat)` on character lists (as
`str.count` scans left to right, skipping past each match). -/
def countOcc (pat : List Char) (l : List Char) : Nat :=
  if h : pat = [] then l.length + 1
  else
    match l with
    | [] => 0
    | c :: rest =>
      if pat.isPrefixOf (c :: rest) then
        1 + countOcc pat ((c :: rest).drop pat.length)
      else
        countOcc pat rest
termination_by l.length
decreasing_by
  · simp only [List.length_drop, List.length_cons]
    have hp : 1 ≤ pat.length := List.length_pos.mpr h
    omega
  · simp

/-- The file system, as seen by the merge: file name to contents, `none`
meaning the open fails (`IOError`). -/
def FileSys := String → Option String

/-- `get_file_length`: `len(myfile.read().strip().split('\n'))`. -/
def get_file_length (fs : FileSys) (filename : String) : Option Nat :=
  (fs filename).map (fun text => (py_split (py_strip text) '\n').length)

/-- `get_test_count`: `text.count('  void test') + text.count('  def test')`. -/
def get_test_count (fs : FileSys) (filename : String) : Option Nat :=
  (fs filename).map (fun text =>
    countOcc "  void test".data text.data + countOcc "  def test".data text.data)

/-- Python `source.split('/')[-1].split('.')[0]` as used in
`add_line_count_info` and `is_deprecated`. -/
def py_basename (source : String) : String :=
  ((py_split ((py_split source '/').getLastD "") '.')).headD ""

/-- The header path derived in `add_line_count_info` / `is_deprecated`:
`re.sub('/src/<base>.cpp', '/inc/Mantid<module>/<base>.h', source)`
(the pattern contains no intended regex metacharacters, so `re.sub` is
modelled as literal replacement of every occurrence). -/
def header_path (source basename module : String) : String :=
  source.replace ("/src/" ++ basename ++ ".cpp")
    ("/inc/Mantid" ++ module ++ "/" ++ basename ++ ".h")

/-- The four record attributes `add_line_count_info` may assign
(`has_test`, `test_fraction`, `test_count`, `line_count`), computed from
the file system: resolve the source, its paired header (C++ non-test
records only) and its paired test file; sum the lines of whichever
resolve; a failing source open (`IOError`) yields the `'-'` sentinel and
leaves the test attributes at their prior values. -/
def line_count_info (fs : FileSys) (record : AlgRecord) :
    Bool × Rat × Nat × String :=
  match get_file_length fs record.path with
  | none => (record.has_test, record.test_fraction, record.test_count, "-")
  | some source_lines =>
    let basename := py_basename record.path
    let count1 :=
      if record.type = "C++" && !record.is_test then
        let module := (py_split record.module '/').getLastD ""
        match get_file_length fs (header_path record.path basename module) with
        | some header_lines => source_lines + header_lines
        | none => source_lines
      else source_lines
    if !record.is_test then
      let testsource : Option String :=
        if record.type = "C++" then
          some (record.path.replace ("/src/" ++ basename ++ ".cpp")
            ("/test/" ++ basename ++ "Test.h"))
        else if record.type = "Python" then
          some ((((record.path.replace "/plugins/algorithms/"
            "/test/python/plugins/algorithms/").replace ".py"
            "Test.py").replace "/WorkflowAlgorithms" ""))
        else none
      match testsource with
      | none => (record.has_test, record.test_fraction, record.test_count,
          toString count1)
      | some ts =>
        match fs ts with
        | none => (record.has_test, record.test_fraction, record.test_count,
            toString count1)
        | some text =>
          let test_lines := (py_split (py_strip text) '\n').length
          (true, (test_lines : Rat) / (source_lines : Rat),
           countOcc "  void test".data text.data +
             countOcc "  def test".data text.data,
           toString (count1 + test_lines))
    else (record.has_test, record.test_fraction, record.test_count,
        toString count1)

/-- `add_line_count_info`: assign the derived attributes onto the record. -/
def add_line_count_info (fs : FileSys) (record : AlgRecord) : AlgRecord :=
  { record with
    has_test := (line_count_info fs record).1
    test_fraction := (line_count_info fs record).2.1
    test_count := (line_count_info fs record).2.2.1
    line_count := (line_count_info fs record).2.2.2 }

/-- `is_deprecated(record, deprecated_headers)`: a C++ non-test record is
deprecated iff its derived header path occurs in the deprecation list;
every other record is never deprecated. -/
def is_deprecated (record : AlgRecord) (deprecated_headers : List String) : Bool :=
  if record.type = "C++" && !record.is_test then
    deprecated_headers.contains
      (header_path record.path (py_basename record.path)
        ((py_split record.module '/').getLastD ""))
  else false

/-- `load_blacklist`: `myfile.read().strip().split('\n')` — note an empty
blacklist file yields the single entry `""`. -/
def load_blacklist (content : String) : List String :=
  py_split (py_strip content) '\n'

/-- The superseded marker computed in `merge` for one record:
`alg_version = int(item.name[:-2:-1])` (the LAST character only), then
membership test of `item.name[:-1] + str(alg_version + 1)`; a non-digit
last character raises `ValueError`. -/
def superseded_of (merged : Dict) (name : String) : Except String String :=
  match py_int? (py_last name) with
  | none => .error ("invalid literal for int() with base 10: " ++ py_last name)
  | some alg_version =>
    .ok (if dmem merged (py_dropLast name ++ toString (alg_version + 1)) then
      "superseded" else "          -")

/-- The CLI flags that `merge` and the report builder read (`args.ours`,
`args.include_tests`, `args.include_blacklisted`, `args.max_count`).  Note
`include_blacklisted` is declared by the argument parser but never read by
any code. -/
structure Args where
  ours : Bool
  include_tests : Bool
  include_blacklisted : Bool
  max_count : Int
deriving DecidableEq

/-- Step 1 of `merge`: seed the dict from the catalog
(`merged[alg.name] = AlgRecord(alg)`). -/
def seed_catalog (algs : List AlgFileRecord) : Dict :=
  algs.foldl (fun m alg => dinsert m alg.name (AlgRecord.ofAlg alg)) []

/-- Step 2 of `merge`: fold in usage observations
(`merged.setdefault(result.name, AlgRecord(result.name)).add_result_data(result)`). -/
def fold_results (results : List AlgResultRecord) (m : Dict) : Except String Dict :=
  results.foldlM (fun m result => do
    let r := (dget? m result.name).getD (AlgRecord.ofName result.name)
    let r ← r.add_result_data result
    pure (dinsert m result.name r)) m

/-- Step 3 of `merge`: assign the `superseded` field of every record,
checking successor membership against the full dict. -/
def set_superseded (m : Dict) : Except String Dict :=
  m.mapM (fun p => do
    let s ← superseded_of m p.2.name
    pure (p.1, { p.2 with superseded := s }))

/-- Steps 4 and 5 of `merge`: line counts and deprecation info. -/
def set_info (fs : FileSys) (deprecated_headers : List String) (m : Dict) : Dict :=
  let m := m.map (fun p => (p.1, add_line_count_info fs p.2))
  m.map (fun p => (p.1, { p.2 with is_deprecated := is_deprecated p.2 deprecated_headers }))

/-- A sequence of Python `del merged[item]` statements: each missing key is
a `KeyError` that aborts. -/
def del_items (items : List String) (m : Dict) : Except String Dict :=
  items.foldlM (fun m item =>
    if dmem m item then pure (ddelete m item) else .error ("KeyError: " ++ item)) m

/-- Step 7 of `merge`: collect keys failing the `--ours` /
`--include-tests` criteria (a key failing both is appended twice), then
delete them. -/
def remove_filtered (args : Args) (m : Dict) : Except String Dict :=
  let to_delete := m.foldl (fun acc p =>
    let acc := if args.ours && !p.2.ours then acc ++ [p.1] else acc
    if !args.include_tests && p.2.is_test then acc ++ [p.1] else acc) ([] : List String)
  del_items to_delete m

/-- Step 8 of `merge` (the `# Special cases` block): the hard-coded rename
of `Q1D.v2` to `Q1D2.v1`; looking up a missing `Q1D.v2` is a `KeyError`. -/
def special_cases (m : Dict) : Except String Dict :=
  match dget? m "Q1D.v2" with
  | none => .error "KeyError: Q1D.v2"
  | some tmp =>
    let tmp := { tmp with name := "Q1D2.v1" }
    let m := ddelete m "Q1D.v2"
    .ok (dinsert m "Q1D2.v1" tmp)

/-- Steps 1-5 of `merge`: everything before blacklist removal. -/
def merge_pre_blacklist (algs : List AlgFileRecord) (results : List AlgResultRecord)
    (deprecated_headers : List String) (fs : FileSys) : Except String Dict := do
  let merged := seed_catalog algs
  let merged ← fold_results results merged
  let merged ← set_superseded merged
  pure (set_info fs deprecated_headers merged)

/-- Steps 1-7 of `merge`: the unified set after blacklist removal and the
user filters, right before the hard-coded identity correction. -/
def merge_core (algs : List AlgFileRecord) (results : List AlgResultRecord)
    (deprecated_headers : List String) (blacklist : List String)
    (args : Args) (fs : FileSys) : Except String Dict := do
  let merged ← merge_pre_blacklist algs results deprecated_headers fs
  let merged ← del_items blacklist merged
  remove_filtered args merged

/-- `merge` of `merge_data.py`, parameterised (per the spec's contract) by
its inputs: the catalog (`parse_mantid_source.get_declared_algorithms()`),
the usage observations (`parse_raw_results.get_algorithm_results()`), the
deprecation list, the loaded blacklist, the CLI flags, and the file
system.  The `update_cache` side effect is an external collaborator with no
effect on the result. -/
def merge (algs : List AlgFileRecord) (results : List AlgResultRecord)
    (deprecated_headers : List String) (blacklist : List String)
    (args : Args) (fs : FileSys) : Except String Dict := do
  let merged ← merge_core algs results deprecated_headers blacklist args fs
  special_cases merged

/-- The `Summary` class: per-category counters, all starting at zero. -/
structure Summary where
  total : Nat := 0
  unused : Nat := 0
  up_to_threshold : Nat := 0
  deprecated : Nat := 0
  superseded : Nat := 0
  untested : Nat := 0
deriving DecidableEq

/-- Loop body of `get_summary`: each `if cond: field += 1` of the source,
written as one functional record update. -/
def Summary.add (self : Summary) (args : Args) (r : AlgRecord) : Summary :=
  { total := self.total + 1
    deprecated := self.deprecated + (if r.is_deprecated then 1 else 0)
    untested := self.untested + (if !r.has_test then 1 else 0)
    superseded := self.superseded + (if r.superseded == "superseded" then 1 else 0)
    unused := self.unused + (if r.get_count == 0 then 1 else 0)
    up_to_threshold := self.up_to_threshold + (if r.get_count == 0 then 1 else 0) +
      (if 0 < r.get_count && r.get_count ≤ args.max_count then 1 else 0) }

/-- `get_summary`: fold the per-record counting loop over the merged dict. -/
def get_summary (args : Args) (merged : Dict) : Summary :=
  merged.foldl (fun s p => s.add args p.2) {}

/-! Concrete inputs used by counterexamples and witnesses. -/

/-- An empty file system: every open fails. -/
def fs0 : FileSys := fun _ => none

/-- Default CLI flags: no `--ours`, no `--include-tests`, no
`--include-blacklisted`, `--max-count` at its default `-1`. -/
def args0 : Args := ⟨false, false, false, -1⟩

/-- The two usage observations of the acceptance scenario. -/
def obs4 : List AlgResultRecord :=
  [⟨"A.v1", 3, false, "3.5"⟩, ⟨"A.v2", 7, true, "3.6"⟩]

/-- A catalog with a multi-digit version pair plus the `Q1D.v2` entry the
hard-coded rename requires. -/
def cat1 : List AlgFileRecord :=
  [⟨"X.v19", "-", "-", false, "-"⟩, ⟨"X.v20", "-", "-", false, "-"⟩,
   ⟨"Q1D.v2", "-", "-", false, "-"⟩]

/-- A catalog containing both the rename source `Q1D.v2` (module `M2`) and
the rename target `Q1D2.v1` (module `M1`). -/
def cat2 : List AlgFileRecord :=
  [⟨"Q1D.v2", "p2", "-", false, "M2"⟩, ⟨"Q1D2.v1", "p1", "-", false, "M1"⟩]

/-- C4 counterexample: on the acceptance-scenario inputs (empty catalog,
the two observations, empty deprecation set, empty blacklist) `merge` does
NOT succeed: it aborts with a `KeyError` at the hard-coded `Q1D.v2` to
`Q1D2.v1` rename, because `Q1D.v2` is absent from the merged set. -/
theorem C4_counterexample :
    merge [] obs4 [] [] args0 fs0 = Except.error "KeyError: Q1D.v2" := by
  rfl

/-- The record produced for `A.v1` in the acceptance scenario: a
usage-only record with 3 direct calls under version 3.5, marked
superseded. -/
def recA1 : AlgRecord :=
  { AlgRecord.ofName "A.v1" with
    count_direct := [3, 0, 0, 0, 0, 0, 0, 0]
    superseded := "superseded"
    line_count := "-" }

/-- The record produced for `A.v2` in the acceptance scenario: a
usage-only record with 7 internal calls under version 3.6, not
superseded. -/
def recA2 : AlgRecord :=
  { AlgRecord.ofName "A.v2" with
    count_internal := [0, 7, 0, 0, 0, 0, 0, 0]
    superseded := "          -"
    line_count := "-" }

/-- C4 amended: on the acceptance-scenario inputs, the merged set as
assembled through steps 1-7 (`merge_core`, everything before the hard-coded
rename) holds exactly the two claimed records: `A.v1` marked superseded
with count 3, and `A.v2` unmarked with count 7 and internal fraction 1; the
full `merge` then aborts at the rename (see the counterexample). -/
theorem C4_acceptance_scenario_before_rename :
    merge_core [] obs4 [] [] args0 fs0 = Except.ok [("A.v1", recA1), ("A.v2", recA2)] ∧
    recA1.superseded = "superseded" ∧ recA1.get_count = 3 ∧
    recA2.superseded = "          -" ∧ recA2.get_count = 7 ∧
    recA2.get_internal_fraction = 1 := by
  refine ⟨rfl, rfl, rfl, rfl, rfl, ?_⟩
  norm_num [AlgRecord.get_internal_fraction, AlgRecord.get_count, recA2, AlgRecord.ofName]

/-- C1 counterexample: with `X.v19` and `X.v20` both in the merged set,
the record for `X.v19` is NOT marked superseded — the code parses only the
last character of the identity, so it looks for `X.v110` instead of
`X.v20`. -/
theorem C1_counterexample :
    (merge cat1 [] [] [] args0 fs0).map (fun m =>
      (dmem m "X.v20", (dget? m "X.v19").map (fun r => r.superseded))) =
      Except.ok (true, some "          -") := by
  rfl

/-- C2 counterexample: with `Q1D2.v1` on the blacklist and both `Q1D.v2`
and `Q1D2.v1` in the catalog, the identity `Q1D2.v1` IS present in the
returned mapping: blacklist removal runs before the hard-coded rename,
which re-creates the blacklisted key. -/
theorem C2_counterexample :
    (merge cat2 [] [] ["Q1D2.v1"] args0 fs0).map (fun m => dmem m "Q1D2.v1") =
      Except.ok true ∧ "Q1D2.v1" ∈ ["Q1D2.v1"] := by
  exact ⟨rfl, by decide⟩

/-- C7 counterexample: with both `Q1D.v2` (module `M2`) and the rename
target `Q1D2.v1` (module `M1`) present when the hard-coded rename is
applied, `merge` succeeds with NO error, and the returned `Q1D2.v1` entry
is the renamed `Q1D.v2` record (module `M2`): the pre-existing record is
silently overwritten and dropped. -/
theorem C7_counterexample :
    (merge cat2 [] [] [] args0 fs0).map (fun m =>
      (m.length, (dget? m "Q1D2.v1").map (fun r => r.module))) =
      Except.ok (1, some "M2") := by
  rfl

/-- C5 counterexample: a record built by the program's own fold from the
observation `["A.v1", -1, false, "3.5"]` (a JSON-decoded integer count is
not constrained to be non-negative anywhere in the code) has
`get_count() = -1 < 0`. -/
theorem C5_counterexample :
    ((AlgRecord.ofName "A.v1").add_result_data ⟨"A.v1", -1, false, "3.5"⟩).map
      AlgRecord.get_count = Except.ok (-1) ∧ (-1 : Int) < 0 := by
  exact ⟨rfl, by decide⟩

/-- The record obtained by folding observations `["A.v1", 3, false, "3.5"]`
and `["A.v1", -1, true, "3.5"]` into a fresh usage-only record. -/
def recC6 : AlgRecord :=
  { AlgRecord.ofName "A.v1" with
    count_direct := [3, 0, 0, 0, 0, 0, 0, 0]
    count_internal := [-1, 0, 0, 0, 0, 0, 0, 0] }

/-- C6 counterexample: the record built by the program's own fold from
observations with counts 3 (direct) and -1 (internal) has
`get_count() = 2 ≥ 1`, yet `get_internal_fraction() = -1/2`, outside
`[0,1]`. -/
theorem C6_counterexample :
    (do
      let r ← (AlgRecord.ofName "A.v1").add_result_data ⟨"A.v1", 3, false, "3.5"⟩
      r.add_result_data ⟨"A.v1", -1, true, "3.5"⟩ : Except String AlgRecord) =
      Except.ok recC6 ∧
    recC6.get_count = 2 ∧ recC6.get_internal_fraction < 0 := by
  refine ⟨rfl, rfl, ?_⟩
  norm_num [AlgRecord.get_internal_fraction, AlgRecord.get_count, recC6, AlgRecord.ofName]

/-- C5 amended: `get_count()` is always the sum of the direct-count array
plus the sum of the internal-count array, and it is non-negative whenever
every accumulated entry is non-negative (which holds for every record
folded from non-negative observation counts; the code itself places no
sign constraint on observation counts). -/
theorem C5_count_is_sum (r : AlgRecord)
    (hd : ∀ x ∈ r.count_direct, 0 ≤ x) (hi : ∀ x ∈ r.count_internal, 0 ≤ x) :
    r.get_count = r.count_direct.sum + r.count_internal.sum ∧ 0 ≤ r.get_count := by
  have h1 : 0 ≤ r.count_direct.sum := List.sum_nonneg hd
  have h2 : 0 ≤ r.count_internal.sum := List.sum_nonneg hi
  refine ⟨rfl, ?_⟩
  unfold AlgRecord.get_count
  omega

/-- Witness for C5 at a freshly created record. -/
theorem C5_witness :
    (AlgRecord.ofName "A.v1").get_count =
      (AlgRecord.ofName "A.v1").count_direct.sum +
        (AlgRecord.ofName "A.v1").count_internal.sum ∧
    0 ≤ (AlgRecord.ofName "A.v1").get_count :=
  C5_count_is_sum (AlgRecord.ofName "A.v1") (by decide) (by decide)

/-- C6 amended: `get_internal_fraction()` is 1 whenever `get_count() < 1`
(so in particular when it is 0), and otherwise is exactly
`sum(count_internal) / get_count()`; when every accumulated count entry is
non-negative the value lies in the closed interval `[0, 1]`. -/
theorem C6_internal_fraction (r : AlgRecord) :
    (r.get_count < 1 → r.get_internal_fraction = 1) ∧
    (1 ≤ r.get_count →
      r.get_internal_fraction = (r.count_internal.sum : Rat) / (r.get_count : Rat)) ∧
    ((∀ x ∈ r.count_direct, 0 ≤ x) → (∀ x ∈ r.count_internal, 0 ≤ x) →
      0 ≤ r.get_internal_fraction ∧ r.get_internal_fraction ≤ 1) := by
  refine ⟨?_, ?_, ?_⟩
  · intro h
    rw [AlgRecord.get_internal_fraction, if_pos h]
  · intro h
    rw [AlgRecord.get_internal_fraction, if_neg (by omega)]
  · intro hd hi
    have h1 : 0 ≤ r.count_direct.sum := List.sum_nonneg hd
    have h2 : 0 ≤ r.count_internal.sum := List.sum_nonneg hi
    by_cases h : r.get_count < 1
    · rw [AlgRecord.get_internal_fraction, if_pos h]
      norm_num
    · rw [AlgRecord.get_internal_fraction, if_neg h]
      have hc : (0 : Int) < r.get_count := by omega
      have hle : r.count_internal.sum ≤ r.get_count := by
        unfold AlgRecord.get_count
        omega
      have hcq : (0 : Rat) < (r.get_count : Rat) := by exact_mod_cast hc
      constructor
      · apply div_nonneg _ (le_of_lt hcq)
        exact_mod_cast h2
      · rw [div_le_one hcq]
        exact_mod_cast hle

/-- Witness for C6 at the concrete record for `A.v2`. -/
theorem C6_witness :
    0 ≤ recA2.get_internal_fraction ∧ recA2.get_internal_fraction ≤ 1 :=
  (C6_internal_fraction recA2).2.2 (by decide) (by decide)

/-- A counter inside `Summary` that one `if cond: field += 1` statement of
`get_summary` increments accumulates, over the whole loop, the number of
records satisfying its condition. -/
theorem foldl_add_count (args : Args) (f : Summary → Nat) (pred : AlgRecord → Bool)
    (hf : ∀ s r, f (s.add args r) = f s + (if pred r then 1 else 0)) :
    ∀ (l : Dict) (s : Summary),
      f (l.foldl (fun s p => s.add args p.2) s) =
        f s + l.countP (fun p => pred p.2) := by
  intro l
  induction l with
  | nil =>
    intro s
    rfl
  | cons p t ih =>
    intro s
    rw [List.foldl_cons, ih, hf, List.countP_cons]
    omega

/-- C8: for any merged mapping and any flags, the summary's unused count is
the number of records with `get_count() = 0`, its untested count the number
with `has_test = false`, its deprecated count the number with
`is_deprecated = true`, and its superseded count the number of records
marked superseded. -/
theorem C8_summary_counts (args : Args) (merged : Dict) :
    (get_summary args merged).unused =
      merged.countP (fun p => p.2.get_count == 0) ∧
    (get_summary args merged).untested =
      merged.countP (fun p => !p.2.has_test) ∧
    (get_summary args merged).deprecated =
      merged.countP (fun p => p.2.is_deprecated) ∧
    (get_summary args merged).superseded =
      merged.countP (fun p => p.2.superseded == "superseded") := by
  refine ⟨?_, ?_, ?_, ?_⟩
  · rw [get_summary, foldl_add_count args (fun s => s.unused)
      (fun r => r.get_count == 0) (fun _ _ => rfl)]
    simp
  · rw [get_summary, foldl_add_count args (fun s => s.untested)
      (fun r => !r.has_test) (fun _ _ => rfl)]
    simp
  · rw [get_summary, foldl_add_count args (fun s => s.deprecated)
      (fun r => r.is_deprecated) (fun _ _ => rfl)]
    simp
  · rw [get_summary, foldl_add_count args (fun s => s.superseded)
      (fun r => r.superseded == "superseded") (fun _ _ => rfl)]
    simp

/-- A version string outside the lookup table makes `index_for_version`
raise `Unknown version ...`. -/
theorem index_for_version_error (v : String) (hv : v ∉ supported_versions) :
    index_for_version v = Except.error ("Unknown version " ++ v) := by
  simp only [supported_versions, List.mem_cons, List.not_mem_nil, or_false, not_or] at hv
  obtain ⟨h1, h2, h3, h4, h5, h6, h7, h8⟩ := hv
  simp [index_for_version, h1, h2, h3, h4, h5, h6, h7, h8]

/-- `add_result_data` propagates the `index_for_version` error. -/
theorem add_result_data_error (r : AlgRecord) (res : AlgResultRecord) (e : String)
    (h : index_for_version res.version = .error e) :
    r.add_result_data res = .error e := by
  unfold AlgRecord.add_result_data
  rw [h]
  rfl

/-- One-step unfolding of the observation fold. -/
theorem fold_results_cons (r0 : AlgResultRecord) (rest : List AlgResultRecord) (m : Dict) :
    fold_results (r0 :: rest) m =
      (do
        let r1 ← ((dget? m r0.name).getD (AlgRecord.ofName r0.name)).add_result_data r0
        pure (dinsert m r0.name r1)) >>= fun m1 => fold_results rest m1 := by
  rw [fold_results, List.foldlM_cons]
  rfl

/-- If any observation in the list carries a version `index_for_version`
rejects, the whole observation fold fails, whatever dict it starts from. -/
theorem fold_results_error (results : List AlgResultRecord) (r : AlgResultRecord)
    (hr : r ∈ results) (e : String) (he : index_for_version r.version = .error e) :
    ∀ m, ∃ e2, fold_results results m = Except.error e2 := by
  induction results with
  | nil => cases hr
  | cons r0 rest ih =>
    intro m
    rcases List.mem_cons.mp hr with h0 | h0
    · refine ⟨e, ?_⟩
      rw [fold_results_cons,
        add_result_data_error ((dget? m r0.name).getD (AlgRecord.ofName r0.name)) r0 e
          (h0 ▸ he)]
      rfl
    · cases hadd : ((dget? m r0.name).getD (AlgRecord.ofName r0.name)).add_result_data r0 with
      | error e0 =>
        refine ⟨e0, ?_⟩
        rw [fold_results_cons, hadd]
        rfl
      | ok r1 =>
        obtain ⟨e2, h2⟩ := ih h0 (dinsert m r0.name r1)
        refine ⟨e2, ?_⟩
        rw [fold_results_cons, hadd]
        exact h2

/-- C3: `index_for_version` rejects every string outside the eight
supported ones; on the supported list it returns exactly the distinct slot
indices 0..7; and an observation whose version is unsupported aborts the
whole merge (no merged mapping is produced). -/
theorem C3_version_table_and_abort :
    (∀ v, v ∉ supported_versions →
      index_for_version v = Except.error ("Unknown version " ++ v)) ∧
    (supported_versions.map index_for_version =
      (List.range 8).map (Except.ok : Nat → Except String Nat) ∧
      ((List.range 8).map (Except.ok : Nat → Except String Nat)).Nodup) ∧
    (∀ (algs : List AlgFileRecord) (results : List AlgResultRecord)
      (dh bl : List String) (args : Args) (fs : FileSys) (r : AlgResultRecord),
      r ∈ results → r.version ∉ supported_versions →
      (merge algs results dh bl args fs).toOption = none) := by
  refine ⟨index_for_version_error, ⟨rfl, ?_⟩, ?_⟩
  · exact (List.nodup_range 8).map (fun a b h => Except.ok.inj h)
  · intro algs results dh bl args fs r hr hv
    obtain ⟨e2, hfold⟩ := fold_results_error results r hr _
      (index_for_version_error r.version hv) (seed_catalog algs)
    simp only [merge, merge_core, merge_pre_blacklist, hfold]
    rfl

/-- Witness for C3: a run with the unsupported version string `2.0`
produces no merged mapping. -/
theorem C3_witness :
    (merge [] [⟨"A.v1", 1, false, "2.0"⟩] [] [] args0 fs0).toOption = none :=
  C3_version_table_and_abort.2.2 [] [⟨"A.v1", 1, false, "2.0"⟩] [] [] args0 fs0
    ⟨"A.v1", 1, false, "2.0"⟩ (List.mem_singleton.mpr rfl) (by decide)

/-- Head unfolding of deletion. -/
theorem ddelete_cons (p : String × AlgRecord) (t : Dict) (k : String) :
    ddelete (p :: t) k = if p.1 == k then ddelete t k else p :: ddelete t k := by
  cases hp : (p.1 == k) with
  | true => simp [ddelete, List.filter_cons, hp]
  | false => simp [ddelete, List.filter_cons, hp]

/-- Deletion never creates a key. -/
theorem dmem_ddelete_false (m : Dict) (k x : String) (h : dmem m x = false) :
    dmem (ddelete m k) x = false := by
  induction m with
  | nil => rfl
  | cons p t ih =>
    simp only [dmem, List.any_cons, Bool.or_eq_false_iff] at h
    rw [ddelete_cons]
    cases hp : (p.1 == k) with
    | true =>
      rw [if_pos rfl]
      exact ih h.2
    | false =>
      rw [if_neg Bool.false_ne_true]
      simp only [dmem, List.any_cons, Bool.or_eq_false_iff]
      exact ⟨h.1, ih h.2⟩

/-- Deleting a key removes it. -/
theorem dmem_ddelete_self (m : Dict) (k : String) : dmem (ddelete m k) k = false := by
  induction m with
  | nil => rfl
  | cons p t ih =>
    rw [ddelete_cons]
    cases hp : (p.1 == k) with
    | true =>
      rw [if_pos rfl]
      exact ih
    | false =>
      rw [if_neg Bool.false_ne_true]
      simp only [dmem, List.any_cons, hp, Bool.false_or]
      exact ih

/-- Everything in a deleted dict was in the original. -/
theorem mem_of_mem_ddelete (m : Dict) (k : String) (p : String × AlgRecord)
    (h : p ∈ ddelete m k) : p ∈ m :=
  List.mem_of_mem_filter h

/-- One-step unfolding of a `del` loop. -/
theorem del_items_cons (i0 : String) (rest : List String) (m : Dict) :
    del_items (i0 :: rest) m =
      (if dmem m i0 then pure (ddelete m i0) else Except.error ("KeyError: " ++ i0)) >>=
        fun m1 => del_items rest m1 := by
  rw [del_items, List.foldlM_cons]
  rfl

/-- A `del` loop never creates a key. -/
theorem del_items_not_mem (items : List String) :
    ∀ m m', del_items items m = Except.ok m' →
      ∀ x, dmem m x = false → dmem m' x = false := by
  induction items with
  | nil =>
    intro m m' h x hx
    cases h
    exact hx
  | cons i0 rest ih =>
    intro m m' h x hx
    rw [del_items_cons] at h
    by_cases hd : dmem m i0
    · rw [if_pos hd] at h
      exact ih (ddelete m i0) m' h x (dmem_ddelete_false m i0 x hx)
    · rw [if_neg hd] at h
      cases h

/-- After a successful `del` loop, none of the deleted keys remains. -/
theorem del_items_removes (items : List String) :
    ∀ m m', del_items items m = Except.ok m' → ∀ b ∈ items, dmem m' b = false := by
  induction items with
  | nil =>
    intro m m' h b hb
    cases hb
  | cons i0 rest ih =>
    intro m m' h b hb
    rw [del_items_cons] at h
    by_cases hd : dmem m i0
    · rw [if_pos hd] at h
      rcases List.mem_cons.mp hb with h0 | h0
      · subst h0
        exact del_items_not_mem rest (ddelete m b) m' h b (dmem_ddelete_self m b)
      · exact ih (ddelete m i0) m' h b h0
    · rw [if_neg hd] at h
      cases h

/-- If some item of a `del` loop is not a key of the starting dict, the
loop raises a `KeyError`. -/
theorem del_items_error (items : List String) (item : String) (hi : item ∈ items) :
    ∀ m : Dict, dmem m item = false → ∃ e, del_items items m = Except.error e := by
  induction items with
  | nil => cases hi
  | cons i0 rest ih =>
    intro m hm
    rcases List.mem_cons.mp hi with h0 | h0
    · subst h0
      refine ⟨"KeyError: " ++ item, ?_⟩
      rw [del_items_cons, if_neg (by rw [hm]; exact Bool.false_ne_true)]
      rfl
    · by_cases hd : dmem m i0
      · obtain ⟨e, he⟩ := ih h0 (ddelete m i0) (dmem_ddelete_false m i0 item hm)
        refine ⟨e, ?_⟩
        rw [del_items_cons, if_pos hd]
        exact he
      · refine ⟨"KeyError: " ++ i0, ?_⟩
        rw [del_items_cons, if_neg hd]
        rfl

/-- C9: any blacklist line that is not a key of the merged set as it
stands at the blacklist-removal step makes `merge` abort with a `KeyError`
(no mapping is produced); in particular loading an empty blacklist file
yields the single entry `""`, which is subject to the same rule. -/
theorem C9_missing_blacklist_entry_aborts :
    load_blacklist "" = [""] ∧
    (∀ (algs : List AlgFileRecord) (results : List AlgResultRecord)
      (dh : List String) (content : String) (args : Args) (fs : FileSys)
      (item : String),
      item ∈ load_blacklist content →
      (merge_pre_blacklist algs results dh fs).map (fun m => dmem m item) =
        Except.ok false →
      (merge algs results dh (load_blacklist content) args fs).toOption = none) := by
  refine ⟨rfl, ?_⟩
  intro algs results dh content args fs item hi hmem
  cases hpre : merge_pre_blacklist algs results dh fs with
  | error e =>
    rw [hpre] at hmem
    cases hmem
  | ok m =>
    rw [hpre] at hmem
    have hm : dmem m item = false := by
      simpa [Except.map] using hmem
    obtain ⟨e, hdel⟩ := del_items_error (load_blacklist content) item hi m hm
    have hmerge : merge algs results dh (load_blacklist content) args fs =
        (del_items (load_blacklist content) m >>= fun m2 => remove_filtered args m2) >>=
          special_cases := by
      simp only [merge, merge_core, hpre]
      rfl
    rw [hmerge, hdel]
    rfl

/-- Witness for C9: an empty blacklist file aborts this otherwise
successful run, because `""` is not a key. -/
theorem C9_witness :
    (merge [⟨"Q1D.v2", "-", "-", false, "-"⟩] [] [] (load_blacklist "") args0
      fs0).toOption = none :=
  C9_missing_blacklist_entry_aborts.2 [⟨"Q1D.v2", "-", "-", false, "-"⟩] [] [] ""
    args0 fs0 "" (by decide) (by rfl)

/-- Insertion of a different key never creates the key `x`. -/
theorem dmem_dinsert_false (m : Dict) (k : String) (v : AlgRecord) (x : String)
    (hx : dmem m x = false) (hk : (k == x) = false) :
    dmem (dinsert m k v) x = false := by
  induction m with
  | nil =>
    simp only [dinsert, dmem, List.any_cons, List.any_nil, Bool.or_false]
    exact hk
  | cons p t ih =>
    simp only [dmem, List.any_cons, Bool.or_eq_false_iff] at hx
    by_cases hp : p.1 = k
    · simp only [dinsert, if_pos hp, dmem, List.any_cons, Bool.or_eq_false_iff]
      exact ⟨hk, hx.2⟩
    · simp only [dinsert, if_neg hp, dmem, List.any_cons, Bool.or_eq_false_iff]
      exact ⟨hx.1, ih hx.2⟩

/-- `remove_filtered` never creates a key. -/
theorem remove_filtered_not_mem (args : Args) (m m' : Dict)
    (h : remove_filtered args m = Except.ok m') (x : String) (hx : dmem m x = false) :
    dmem m' x = false := by
  rw [remove_filtered] at h
  exact del_items_not_mem _ m m' h x hx

/-- The hard-coded rename can only (re-)create the key `Q1D2.v1`. -/
theorem special_cases_not_mem (m m' : Dict) (h : special_cases m = Except.ok m')
    (x : String) (hne : x ≠ "Q1D2.v1") (hx : dmem m x = false) :
    dmem m' x = false := by
  rw [special_cases] at h
  cases hget : dget? m "Q1D.v2" with
  | none =>
    rw [hget] at h
    cases h
  | some tmp =>
    rw [hget] at h
    have hm' : m' = dinsert (ddelete m "Q1D.v2") "Q1D2.v1"
        { tmp with name := "Q1D2.v1" } := by
      cases h
      rfl
    subst hm'
    exact dmem_dinsert_false _ _ _ x (dmem_ddelete_false m _ x hx)
      (beq_eq_false_iff_ne.mpr (fun hcontra => hne hcontra.symm))

/-- C2 amended: every blacklisted identity other than `Q1D2.v1` is absent
from any mapping `merge` returns, regardless of the `ours`,
`include-tests` and `include-blacklisted` flags; the single exception is
`Q1D2.v1`, which the hard-coded rename (running after blacklist removal)
can re-create. -/
theorem C2_blacklisted_removed (algs : List AlgFileRecord)
    (results : List AlgResultRecord) (dh bl : List String) (args : Args)
    (fs : FileSys) (m : Dict) (b : String) (hb : b ∈ bl) (hne : b ≠ "Q1D2.v1")
    (h : merge algs results dh bl args fs = Except.ok m) :
    dmem m b = false := by
  rw [merge] at h
  cases hcore : merge_core algs results dh bl args fs with
  | error e =>
    rw [hcore] at h
    cases h
  | ok m2 =>
    rw [hcore] at h
    change special_cases m2 = Except.ok m at h
    rw [merge_core] at hcore
    cases hpre : merge_pre_blacklist algs results dh fs with
    | error e =>
      rw [hpre] at hcore
      cases hcore
    | ok m0 =>
      rw [hpre] at hcore
      change (del_items bl m0 >>= fun m1 => remove_filtered args m1) =
        Except.ok m2 at hcore
      cases hdel : del_items bl m0 with
      | error e =>
        rw [hdel] at hcore
        cases hcore
      | ok m1 =>
        rw [hdel] at hcore
        change remove_filtered args m1 = Except.ok m2 at hcore
        have h1 : dmem m1 b = false := del_items_removes bl m0 m1 hdel b hb
        have h2 : dmem m2 b = false := remove_filtered_not_mem args m1 m2 hcore b h1
        exact special_cases_not_mem m2 m h b hne h2

/-- The mapping returned by the witness run for C2: only the renamed
record survives. -/
def mW2 : Dict :=
  [("Q1D2.v1",
    { AlgRecord.ofAlg ⟨"Q1D.v2", "p2", "-", false, "M2"⟩ with
      name := "Q1D2.v1"
      superseded := "          -"
      line_count := "-"
      is_deprecated := false })]

/-- Witness for C2: in a successful run with `X.v1` blacklisted, `X.v1` is
absent from the returned mapping. -/
theorem C2_witness : dmem mW2 "X.v1" = false :=
  C2_blacklisted_removed
    [⟨"Q1D.v2", "p2", "-", false, "M2"⟩, ⟨"X.v1", "p1", "-", false, "M1"⟩] [] []
    ["X.v1"] args0 fs0 mW2 "X.v1" (by decide) (by decide) (by rfl)

/-- Looking up the key just inserted returns the inserted value. -/
theorem dget?_dinsert_self (m : Dict) (k : String) (v : AlgRecord) :
    dget? (dinsert m k v) k = some v := by
  induction m with
  | nil => simp [dinsert, dget?, List.find?]
  | cons p t ih =>
    by_cases hp : p.1 = k
    · simp [dinsert, if_pos hp, dget?, List.find?]
    · rw [dinsert, if_neg hp]
      have hb : (p.1 == k) = false := beq_eq_false_iff_ne.mpr hp
      simp only [dget?, List.find?, hb]
      exact ih

/-- C7 amended: when `Q1D.v2` is present at the rename step, `merge`'s
special-case block succeeds unconditionally, writing the renamed record
over the key `Q1D2.v1`; a record already stored under `Q1D2.v1` is
silently replaced (the subsequent lookup returns the renamed record, not
the old one), and no error is raised.  The rename errors only when
`Q1D.v2` itself is missing. -/
theorem C7_rename_overwrites (m : Dict) :
    (∀ tmp, dget? m "Q1D.v2" = some tmp →
      special_cases m = Except.ok
        (dinsert (ddelete m "Q1D.v2") "Q1D2.v1" { tmp with name := "Q1D2.v1" }) ∧
      dget? (dinsert (ddelete m "Q1D.v2") "Q1D2.v1" { tmp with name := "Q1D2.v1" })
        "Q1D2.v1" = some { tmp with name := "Q1D2.v1" }) ∧
    (dget? m "Q1D.v2" = none →
      special_cases m = Except.error "KeyError: Q1D.v2") := by
  constructor
  · intro tmp htmp
    rw [special_cases, htmp]
    exact ⟨rfl, dget?_dinsert_self _ _ _⟩
  · intro h
    rw [special_cases, h]

/-- The catalog record for the pre-existing rename source `Q1D.v2`. -/
def recQ2 : AlgRecord := AlgRecord.ofAlg ⟨"Q1D.v2", "p2", "-", false, "M2"⟩

/-- A dict holding both the rename source and a pre-existing record under
the rename target. -/
def mC7 : Dict :=
  [("Q1D.v2", recQ2), ("Q1D2.v1", AlgRecord.ofAlg ⟨"Q1D2.v1", "p1", "-", false, "M1"⟩)]

/-- Witness for C7: applied to a dict already holding `Q1D2.v1`, the
rename succeeds and the lookup yields the renamed `Q1D.v2` record. -/
theorem C7_witness :
    special_cases mC7 = Except.ok
      (dinsert (ddelete mC7 "Q1D.v2") "Q1D2.v1" { recQ2 with name := "Q1D2.v1" }) ∧
    dget? (dinsert (ddelete mC7 "Q1D.v2") "Q1D2.v1" { recQ2 with name := "Q1D2.v1" })
      "Q1D2.v1" = some { recQ2 with name := "Q1D2.v1" } :=
  (C7_rename_overwrites mC7).1 recQ2 rfl

/-- Bind on a success is application. -/
theorem ok_bind {α β : Type} (a : α) (f : α → Except String β) :
    (Except.ok a >>= f) = f a := rfl

/-- Bind on an error is that error. -/
theorem error_bind {α β : Type} (e : String) (f : α → Except String β) :
    (Except.error e >>= f : Except String β) = Except.error e := rfl

/-- `add_result_data`, written as a map over the version lookup. -/
theorem add_result_data_eq (r : AlgRecord) (res : AlgResultRecord) :
    r.add_result_data res = (index_for_version res.version).map (fun index =>
      if res.is_child then
        { r with count_internal := addAt r.count_internal index res.count }
      else
        { r with count_direct := addAt r.count_direct index res.count }) := by
  unfold AlgRecord.add_result_data
  cases index_for_version res.version with
  | error e => rfl
  | ok i => cases res.is_child <;> rfl

/-- `add_result_data` never changes the record's name. -/
theorem add_result_data_name (r r' : AlgRecord) (res : AlgResultRecord)
    (h : r.add_result_data res = Except.ok r') : r'.name = r.name := by
  rw [add_result_data_eq] at h
  cases hidx : index_for_version res.version with
  | error e =>
    rw [hidx] at h
    cases h
  | ok i =>
    rw [hidx] at h
    cases hc : res.is_child with
    | true =>
      simp only [hc, Except.map, if_true] at h
      cases h
      rfl
    | false =>
      simp only [hc, Except.map, if_false] at h
      cases h
      rfl

/-- Entries of an updated dict: the new pair, or an old entry. -/
theorem mem_dinsert (m : Dict) (k : String) (v : AlgRecord) (p : String × AlgRecord)
    (h : p ∈ dinsert m k v) : p = (k, v) ∨ p ∈ m := by
  induction m with
  | nil =>
    left
    simpa [dinsert] using h
  | cons q t ih =>
    by_cases hq : q.1 = k
    · rw [dinsert, if_pos hq] at h
      rcases List.mem_cons.mp h with h0 | h0
      · left
        exact h0
      · right
        exact List.mem_cons_of_mem q h0
    · rw [dinsert, if_neg hq] at h
      rcases List.mem_cons.mp h with h0 | h0
      · right
        exact h0 ▸ List.mem_cons_self q t
      · rcases ih h0 with h1 | h1
        · left
          exact h1
        · right
          exact List.mem_cons_of_mem q h1

/-- A successful lookup in a dict whose values carry their key as name
returns a record named by the key. -/
theorem names_dget? (m : Dict) (hm : ∀ p ∈ m, p.2.name = p.1) (k : String)
    (v : AlgRecord) (h : dget? m k = some v) : v.name = k := by
  rw [dget?] at h
  cases hf : List.find? (fun p => p.1 == k) m with
  | none =>
    rw [hf] at h
    cases h
  | some q =>
    rw [hf] at h
    have hq1 := List.find?_some hf
    have hqm : q ∈ m := List.mem_of_find?_eq_some hf
    have hv : q.2 = v := by
      cases h
      rfl
    rw [← hv, hm q hqm]
    exact eq_of_beq hq1

/-- Catalog seeding stores every record under its own name. -/
theorem seed_catalog_names (algs : List AlgFileRecord) :
    ∀ p ∈ seed_catalog algs, p.2.name = p.1 := by
  rw [seed_catalog]
  suffices h : ∀ (m : Dict), (∀ p ∈ m, p.2.name = p.1) →
      ∀ p ∈ algs.foldl (fun m alg => dinsert m alg.name (AlgRecord.ofAlg alg)) m,
        p.2.name = p.1 by
    refine h [] ?_
    intro p hp
    cases hp
  induction algs with
  | nil =>
    intro m hm
    exact hm
  | cons a t ih =>
    intro m hm
    rw [List.foldl_cons]
    refine ih _ ?_
    intro p hp
    rcases mem_dinsert _ _ _ p hp with h0 | h0
    · rw [h0]
      rfl
    · exact hm p h0

/-- The observation fold stores every record under its own name. -/
theorem fold_results_names (results : List AlgResultRecord) :
    ∀ (m m' : Dict), fold_results results m = Except.ok m' →
      (∀ p ∈ m, p.2.name = p.1) → ∀ p ∈ m', p.2.name = p.1 := by
  induction results with
  | nil =>
    intro m m' h hm
    cases h
    exact hm
  | cons r0 rest ih =>
    intro m m' h hm
    rw [fold_results_cons] at h
    cases hadd : ((dget? m r0.name).getD (AlgRecord.ofName r0.name)).add_result_data r0 with
    | error e =>
      rw [hadd, error_bind] at h
      cases h
    | ok r1 =>
      rw [hadd] at h
      change fold_results rest (dinsert m r0.name r1) = Except.ok m' at h
      have hbase : ((dget? m r0.name).getD (AlgRecord.ofName r0.name)).name = r0.name := by
        cases hget : dget? m r0.name with
        | none => rfl
        | some v => exact names_dget? m hm r0.name v hget
      have hr1 : r1.name = r0.name := by
        rw [add_result_data_name _ _ _ hadd, hbase]
      refine ih (dinsert m r0.name r1) m' h ?_
      intro p hp
      rcases mem_dinsert _ _ _ p hp with h0 | h0
      · rw [h0]
        exact hr1
      · exact hm p h0

/-- The superseded pass keeps every record stored under its own name. -/
theorem set_superseded_names_aux (m0 : Dict) (l : List (String × AlgRecord)) :
    ∀ m', (l.mapM (fun p => do
        let s ← superseded_of m0 p.2.name
        pure (p.1, { p.2 with superseded := s })) = Except.ok m') →
      (∀ p ∈ l, p.2.name = p.1) → ∀ q ∈ m', q.2.name = q.1 := by
  induction l with
  | nil =>
    intro m' h hl q hq
    cases h
    cases hq
  | cons p t ih =>
    intro m' h hl q hq
    rw [List.mapM_cons] at h
    cases hs : superseded_of m0 p.2.name with
    | error e =>
      rw [hs, error_bind] at h
      cases h
    | ok s =>
      rw [hs, ok_bind, pure_bind] at h
      cases ht : t.mapM (fun p => do
          let s ← superseded_of m0 p.2.name
          pure (p.1, { p.2 with superseded := s })) with
      | error e =>
        rw [ht, error_bind] at h
        cases h
      | ok bs =>
        rw [ht, ok_bind] at h
        cases h
        rcases List.mem_cons.mp hq with h0 | h0
        · rw [h0]
          exact hl p (List.mem_cons_self p t)
        · exact ih bs ht (fun x hx => hl x (List.mem_cons_of_mem p hx)) q h0

/-- `set_superseded` keeps every record stored under its own name. -/
theorem set_superseded_names (m m' : Dict) (h : set_superseded m = Except.ok m')
    (hm : ∀ p ∈ m, p.2.name = p.1) : ∀ q ∈ m', q.2.name = q.1 := by
  rw [set_superseded] at h
  exact set_superseded_names_aux m m m' h hm

/-- `add_line_count_info` never changes the record's name. -/
theorem add_line_count_info_name (fs : FileSys) (r : AlgRecord) :
    (add_line_count_info fs r).name = r.name := rfl

/-- The line-count and deprecation passes keep every record stored under
its own name. -/
theorem set_info_names (fs : FileSys) (dh : List String) (m : Dict)
    (hm : ∀ p ∈ m, p.2.name = p.1) : ∀ p ∈ set_info fs dh m, p.2.name = p.1 := by
  intro p hp
  rw [set_info] at hp
  simp only [List.map_map, List.mem_map, Function.comp] at hp
  obtain ⟨q, hq, rfl⟩ := hp
  show (add_line_count_info fs q.2).name = q.1
  rw [add_line_count_info_name]
  exact hm q hq

/-- A `del` loop only removes entries. -/
theorem del_items_subset (items : List String) :
    ∀ m m', del_items items m = Except.ok m' → ∀ p, p ∈ m' → p ∈ m := by
  induction items with
  | nil =>
    intro m m' h p hp
    cases h
    exact hp
  | cons i0 rest ih =>
    intro m m' h p hp
    rw [del_items_cons] at h
    by_cases hd : dmem m i0
    · rw [if_pos hd] at h
      exact mem_of_mem_ddelete m i0 p (ih _ _ h p hp)
    · rw [if_neg hd, error_bind] at h
      cases h

/-- The user-filter pass keeps every record stored under its own name. -/
theorem remove_filtered_names (args : Args) (m m' : Dict)
    (h : remove_filtered args m = Except.ok m')
    (hm : ∀ p ∈ m, p.2.name = p.1) : ∀ p ∈ m', p.2.name = p.1 := by
  rw [remove_filtered] at h
  intro p hp
  exact hm p (del_items_subset _ m m' h p hp)

/-- The hard-coded rename keeps every record stored under its own name
(the renamed record is stored under its new name). -/
theorem special_cases_names (m m' : Dict) (h : special_cases m = Except.ok m')
    (hm : ∀ p ∈ m, p.2.name = p.1) : ∀ p ∈ m', p.2.name = p.1 := by
  rw [special_cases] at h
  cases hget : dget? m "Q1D.v2" with
  | none =>
    rw [hget] at h
    cases h
  | some tmp =>
    rw [hget] at h
    have hm' : m' = dinsert (ddelete m "Q1D.v2") "Q1D2.v1"
        { tmp with name := "Q1D2.v1" } := by
      cases h
      rfl
    subst hm'
    intro p hp
    rcases mem_dinsert _ _ _ p hp with h0 | h0
    · rw [h0]
    · exact hm p (mem_of_mem_ddelete _ _ p h0)

/-- A successful merge decomposes into its successful stages. -/
theorem merge_ok_parts (algs : List AlgFileRecord) (results : List AlgResultRecord)
    (dh bl : List String) (args : Args) (fs : FileSys) (m : Dict)
    (h : merge algs results dh bl args fs = Except.ok m) :
    ∃ mf ms m1 m2,
      fold_results results (seed_catalog algs) = Except.ok mf ∧
      set_superseded mf = Except.ok ms ∧
      del_items bl (set_info fs dh ms) = Except.ok m1 ∧
      remove_filtered args m1 = Except.ok m2 ∧
      special_cases m2 = Except.ok m := by
  rw [merge] at h
  cases hcore : merge_core algs results dh bl args fs with
  | error e =>
    rw [hcore, error_bind] at h
    cases h
  | ok m2 =>
    rw [hcore, ok_bind] at h
    rw [merge_core] at hcore
    cases hpre : merge_pre_blacklist algs results dh fs with
    | error e =>
      rw [hpre, error_bind] at hcore
      cases hcore
    | ok m0 =>
      rw [hpre, ok_bind] at hcore
      rw [merge_pre_blacklist] at hpre
      cases hfold : fold_results results (seed_catalog algs) with
      | error e =>
        rw [hfold, error_bind] at hpre
        cases hpre
      | ok mf =>
        rw [hfold, ok_bind] at hpre
        cases hsup : set_superseded mf with
        | error e =>
          rw [hsup, error_bind] at hpre
          cases hpre
        | ok ms =>
          rw [hsup, ok_bind] at hpre
          have hm0 : m0 = set_info fs dh ms := by
            cases hpre
            rfl
          subst hm0
          cases hdel : del_items bl (set_info fs dh ms) with
          | error e =>
            rw [hdel, error_bind] at hcore
            cases hcore
          | ok m1 =>
            rw [hdel, ok_bind] at hcore
            exact ⟨mf, ms, m1, m2, rfl, hsup, hdel, hcore, h⟩

/-- C10: in any mapping `merge` returns, every key equals the `name` field
of the record stored under it; seeding, observation folding, the derived
passes, the deletions and the final rename all preserve this. -/
theorem C10_keys_are_names (algs : List AlgFileRecord) (results : List AlgResultRecord)
    (dh bl : List String) (args : Args) (fs : FileSys) (m : Dict)
    (h : merge algs results dh bl args fs = Except.ok m) :
    m.all (fun p => p.2.name == p.1) = true := by
  obtain ⟨mf, ms, m1, m2, hfold, hsup, hdel, hfil, hspec⟩ :=
    merge_ok_parts algs results dh bl args fs m h
  have h1 := fold_results_names results (seed_catalog algs) mf hfold
    (seed_catalog_names algs)
  have h2 := set_superseded_names mf ms hsup h1
  have h3 := set_info_names fs dh ms h2
  have h4 : ∀ p ∈ m1, p.2.name = p.1 := fun p hp =>
    h3 p (del_items_subset bl _ m1 hdel p hp)
  have h5 := remove_filtered_names args m1 m2 hfil h4
  have h6 := special_cases_names m2 m hspec h5
  rw [List.all_eq_true]
  intro p hp
  exact beq_iff_eq.mpr (h6 p hp)

/-- The mapping returned by the witness run for C10. -/
def mW10 : Dict :=
  [("Q1D2.v1",
    { AlgRecord.ofAlg ⟨"Q1D.v2", "p", "C++", false, "M"⟩ with
      name := "Q1D2.v1"
      superseded := "          -"
      line_count := "-"
      is_deprecated := false })]

/-- Witness for C10 on a concrete successful run. -/
theorem C10_witness : mW10.all (fun p => p.2.name == p.1) = true :=
  C10_keys_are_names [⟨"Q1D.v2", "p", "C++", false, "M"⟩] [] [] [] args0 fs0 mW10
    (by rfl)

/-- Rebuilding a string from its character list is the identity. -/
theorem string_mk_data (s : String) : String.mk s.data = s := rfl

/-- `s[:-2:-1]` of a string ending in the character `c` is `c`. -/
theorem py_last_concat (s : String) (c : Char) :
    py_last (s ++ String.mk [c]) = String.mk [c] := by
  rw [py_last]
  have hd : (s ++ String.mk [c]).data = s.data ++ [c] := by
    cases s
    rfl
  rw [hd, List.getLast?_concat]

/-- `s[:-1]` of a string ending in the character `c` drops that `c`. -/
theorem py_dropLast_concat (s : String) (c : Char) :
    py_dropLast (s ++ String.mk [c]) = s := by
  rw [py_dropLast]
  have hd : (s ++ String.mk [c]).data = s.data ++ [c] := by
    cases s
    rfl
  rw [hd, List.dropLast_concat, string_mk_data]

/-- The superseded marker of an identity ending in one digit character:
the code drops that character and appends the digit's value plus one. -/
theorem superseded_of_digit (m : Dict) (X : String) (c : Char) (N : Nat)
    (hc : py_int? (String.mk [c]) = some N) :
    superseded_of m (X ++ ".v" ++ String.mk [c]) =
      Except.ok (if dmem m ((X ++ ".v") ++ toString (N + 1)) then "superseded"
        else "          -") := by
  unfold superseded_of
  rw [show X ++ ".v" ++ String.mk [c] = (X ++ ".v") ++ String.mk [c] from rfl,
    py_last_concat, hc, py_dropLast_concat]

/-- After the superseded pass, every record's `superseded` field is the
marker computed by `superseded_of` against the pass's input dict. -/
theorem set_superseded_field_aux (m0 : Dict) (l : List (String × AlgRecord)) :
    ∀ m', (l.mapM (fun p => do
        let s ← superseded_of m0 p.2.name
        pure (p.1, { p.2 with superseded := s })) = Except.ok m') →
      ∀ q ∈ m', superseded_of m0 q.2.name = Except.ok q.2.superseded := by
  induction l with
  | nil =>
    intro m' h q hq
    cases h
    cases hq
  | cons p t ih =>
    intro m' h q hq
    rw [List.mapM_cons] at h
    cases hs : superseded_of m0 p.2.name with
    | error e =>
      rw [hs, error_bind] at h
      cases h
    | ok s =>
      rw [hs, ok_bind, pure_bind] at h
      cases ht : t.mapM (fun p => do
          let s ← superseded_of m0 p.2.name
          pure (p.1, { p.2 with superseded := s })) with
      | error e =>
        rw [ht, error_bind] at h
        cases h
      | ok bs =>
        rw [ht, ok_bind] at h
        cases h
        rcases List.mem_cons.mp hq with h0 | h0
        · subst h0
          exact hs
        · exact ih bs ht q h0

/-- C1 amended: after the superseded pass, a record whose identity is
`X.vN` with a SINGLE-DIGIT version number `N` (1-9) is marked superseded
iff `X.v(N+1)` was present in the pass's input set (so e.g. the successor
of `X.v9` is correctly `X.v10`).  In general the code marks a record by
testing the identity obtained from the LAST character only (drop it,
append last digit + 1), so for a multi-digit `N` ending in 9 the tested
identity is not `X.v(N+1)` (for `X.v19` it is `X.v110`, see the
counterexample). -/
theorem C1_superseded_single_digit (m m' : Dict) (X : String) (N : Nat)
    (h1 : 1 ≤ N) (h9 : N ≤ 9) (h : set_superseded m = Except.ok m')
    (p : String × AlgRecord) (hp : p ∈ m')
    (hname : p.2.name = X ++ ".v" ++ toString N) :
    (p.2.superseded = "superseded" ↔
      dmem m (X ++ ".v" ++ toString (N + 1)) = true) := by
  rw [set_superseded] at h
  have hsup := set_superseded_field_aux m m m' h p hp
  rw [hname] at hsup
  have hdig : ∃ c, toString N = String.mk [c] ∧ py_int? (String.mk [c]) = some N := by
    interval_cases N
    · exact ⟨'1', rfl, rfl⟩
    · exact ⟨'2', rfl, rfl⟩
    · exact ⟨'3', rfl, rfl⟩
    · exact ⟨'4', rfl, rfl⟩
    · exact ⟨'5', rfl, rfl⟩
    · exact ⟨'6', rfl, rfl⟩
    · exact ⟨'7', rfl, rfl⟩
    · exact ⟨'8', rfl, rfl⟩
    · exact ⟨'9', rfl, rfl⟩
  obtain ⟨c, hc1, hc2⟩ := hdig
  rw [hc1, superseded_of_digit m X c N hc2] at hsup
  have hval := Except.ok.inj hsup
  by_cases hd : dmem m ((X ++ ".v") ++ toString (N + 1)) = true
  · rw [if_pos hd] at hval
    constructor
    · intro _
      exact hd
    · intro _
      exact hval.symm
  · rw [if_neg hd] at hval
    constructor
    · intro hcontra
      rw [← hval] at hcontra
      exact absurd hcontra (by decide)
    · intro hcontra
      exact absurd hcontra hd

/-- The input dict of the witness run for C1. -/
def mW1 : Dict :=
  [("A.v1", AlgRecord.ofName "A.v1"), ("A.v2", AlgRecord.ofName "A.v2")]

/-- The record for `A.v1` after the superseded pass of the witness run. -/
def recW1 : AlgRecord := { AlgRecord.ofName "A.v1" with superseded := "superseded" }

/-- The output dict of the witness run for C1. -/
def mW1' : Dict :=
  [("A.v1", recW1),
   ("A.v2", { AlgRecord.ofName "A.v2" with superseded := "          -" })]

/-- Witness for C1: with `A.v1` and `A.v2` both present, the record for
`A.v1` is marked superseded iff `A.v2` is present (and it is). -/
theorem C1_witness :
    recW1.superseded = "superseded" ↔ dmem mW1 ("A" ++ ".v" ++ toString 2) = true :=
  C1_superseded_single_digit mW1 mW1' "A" 1 (by decide) (by decide) (by rfl)
    ("A.v1", recW1) (List.mem_cons_self _ _) (by rfl)
